import Mathlib

/-!
Verification of the eureka-go-client repository: a Go client for the
Netflix Eureka service registry.  We give a shallow embedding of the
core components (URL normalizer, transport failover loop, per-operation
status handling, facade instance construction) and prove the spec's
claims about them.

The network itself is modelled as an oracle `String → Except ReqError
HTTPResponse` mapping a request URL to either a transport-level error or
an HTTP response; the Go `*http.Response, error` pair returned by
`doRequestWithFailOver` is modelled as `Option HTTPResponse × Option
ReqError`, keeping the Go convention that exactly the `err == nil` test
decides success.
-/

namespace Eureka

/-- Kind of a Go error value, used to tell transport failures,
context-cancellation failures, protocol (unexpected HTTP status)
failures and argument-validation failures apart.  `fmt.Errorf` with
`%w` preserves the wrapped error's identity (`errors.Is`), which we
model by preserving the kind when wrapping. -/
inductive ErrKind where
  | transport
  | cancelled
  | protocol
  | invalidArgument
  | nilResponse
  deriving DecidableEq, Repr

/-- A Go error value: its kind plus its message string. -/
structure ReqError where
  kind : ErrKind
  msg : String
  deriving DecidableEq, Repr

/-- The part of Go's `*http.Response` the client inspects: the status
code and the body. -/
structure HTTPResponse where
  statusCode : Nat
  body : String
  deriving DecidableEq, Repr

/-- Models `fmt.Errorf("request to %s failed: %w", baseURL, err)` from
the failover loop: wraps `err`, naming the base URL it came from, and
preserves the wrapped error's kind (as `%w` does for `errors.Is`). -/
def wrapURLErr (baseURL : String) (e : ReqError) : ReqError :=
  { kind := e.kind, msg := "request to " ++ baseURL ++ " failed: " ++ e.msg }

/-- The loop body of `EurekaAPIClient.doRequestWithFailOver`
(client.go): iterate over the base URLs carrying `lastErr`; return the
first response obtained without a transport-level error; if none, return
`(nil, lastErr)`. -/
def failOverLoop (doRequest : String → Except ReqError HTTPResponse) :
    List String → Option ReqError → Option HTTPResponse × Option ReqError
  | [], lastErr => (none, lastErr)
  | baseURL :: rest, _lastErr =>
    match doRequest baseURL with
    | .ok resp => (some resp, none)
    | .error err => failOverLoop doRequest rest (some (wrapURLErr baseURL err))

/-- Embeds `EurekaAPIClient.doRequestWithFailOver` (client.go lines 331-341):
`lastErr` starts out as Go's `nil` error. -/
def doRequestWithFailOver (baseURLs : List String)
    (doRequest : String → Except ReqError HTTPResponse) :
    Option HTTPResponse × Option ReqError :=
  failOverLoop doRequest baseURLs none

/-- The sequence of base URLs on which the loop of
`doRequestWithFailOver` invokes `doRequest` (i.e. the servers actually
attempted): every URL up to and including the first one whose round
trip succeeds, or all of them when none succeeds. -/
def failOverAttempts (doRequest : String → Except ReqError HTTPResponse) :
    List String → List String
  | [] => []
  | baseURL :: rest =>
    match doRequest baseURL with
    | .ok _ => [baseURL]
    | .error _ => baseURL :: failOverAttempts doRequest rest

/-! ## URL normalizer (internal/eureka-api, `normalizeBaseURL`)

We embed the fragment of Go's `net/url` used for Eureka base URLs:
absolute URLs of the shape `scheme://host[path]` without query,
fragment or user-info.  `url.Parse` on such a string yields the scheme
(the part before the first `"://"`, which must be a letter followed by
letters, digits, `+`, `-` or `.`), the host (up to the first `/` after
`"://"`) and the path (the rest); `URL.String` re-renders them as
`scheme://host+path`. -/

/-- A parsed Go `url.URL`, restricted to the fields `normalizeBaseURL`
reads or writes. -/
structure GoURL where
  scheme : String
  host : String
  path : String
  deriving DecidableEq, Repr

/-- Characters Go's `net/url` permits in a scheme after the first one. -/
def schemeTailOk (c : Char) : Bool :=
  c.isAlpha || c.isDigit || c == '+' || c == '-' || c == '.'

/-- A valid Go URL scheme: nonempty, a letter followed by
letters/digits/`+`/`-`/`.`. -/
def validScheme (s : List Char) : Bool :=
  match s with
  | [] => false
  | c :: cs => c.isAlpha && cs.all schemeTailOk

/-- Split a character list at the first occurrence of `"://"`: the
characters before it and those after it. -/
def splitScheme : List Char → Option (List Char × List Char)
  | [] => none
  | c :: rest =>
    if c = ':' ∧ rest.take 2 = ['/', '/'] then some ([], rest.drop 2)
    else
      match splitScheme rest with
      | none => none
      | some (s, r) => some (c :: s, r)

/-- The authority (host) part: characters up to the first `/`. -/
def hostOf (l : List Char) : List Char :=
  l.takeWhile (fun c => !(c == '/'))

/-- The path part: characters from the first `/` on (empty if none). -/
def pathOf (l : List Char) : List Char :=
  l.dropWhile (fun c => !(c == '/'))

/-- The fragment of Go's `url.Parse` relevant to Eureka base URLs:
succeeds on `scheme://host[path]` with a valid scheme, returning the
three components; fails otherwise. -/
def parseBaseURL (s : String) : Option GoURL :=
  match splitScheme s.data with
  | none => none
  | some (sch, rest) =>
    if validScheme sch then
      some { scheme := ⟨sch⟩, host := ⟨hostOf rest⟩, path := ⟨pathOf rest⟩ }
    else none

/-- Go's `url.URL.String` on the fragment we model. -/
def GoURL.render (u : GoURL) : String :=
  u.scheme ++ "://" ++ u.host ++ u.path

/-- Go's `strings.TrimRight(p, "/")`: strip every trailing `/`. -/
def trimRightSlash (s : String) : String :=
  ⟨(s.data.reverse.dropWhile (fun c => c == '/')).reverse⟩

/-- Go's `strings.EqualFold` restricted to the ASCII paths compared by
`normalizeBaseURL`: case-insensitive equality via lower-casing. -/
def eqFold (a b : String) : Bool :=
  a.data.map Char.toLower == b.data.map Char.toLower

/-- The `defaultBasePath` constant from client.go. -/
def defaultBasePath : String := "/eureka/v2"

/-- The `switch` of `normalizeBaseURL` (url.go lines 17-29) acting on
the URL path: trailing slashes stripped, then case-insensitive
comparison; `/eureka/v2` kept, `/eureka` gets `/v2` appended, an empty
path becomes the default base path, any other path is kept as trimmed. -/
def canonPath (path : String) : String :=
  if eqFold (trimRightSlash path) "/eureka/v2" then trimRightSlash path
  else if eqFold (trimRightSlash path) "/eureka" then trimRightSlash path ++ "/v2"
  else if trimRightSlash path == "" then defaultBasePath
  else trimRightSlash path

/-- Embeds `normalizeBaseURL` (url.go lines 9-31): parse, require scheme and
host, canonicalize the path, re-render. -/
def normalizeBaseURL (baseURL : String) : Except String String :=
  match parseBaseURL baseURL with
  | none => .error ("parse error: " ++ baseURL)
  | some u =>
    if u.scheme == "" || u.host == "" then
      .error ("base URL must include scheme and host: " ++ baseURL)
    else
      .ok { u with path := canonPath u.path }.render

/-! ## Transport operations (client.go)

Each operation builds, per base URL, a request URL, runs it through
`doRequestWithFailOver`, checks `err != nil` first (as the Go code
does), then maps the HTTP status.  The network is an oracle `doHTTP`
from the full request URL to the round-trip outcome.  The impossible Go
path where both `resp` and `err` are nil (only reachable with an empty
URL list, which the constructor forbids) would dereference a nil
pointer; it is modelled as a distinguished `nilResponse` error. -/

/-- The request URL built by `EurekaAPIClient.Heartbeat`:
`{base}/apps/{appID}/{instanceID}`. -/
def heartbeatURL (baseURL appID instanceID : String) : String :=
  baseURL ++ "/apps/" ++ appID ++ "/" ++ instanceID

/-- Embeds `EurekaAPIClient.Heartbeat` (client.go lines 376-399): PUT to the
heartbeat URL with failover; 404 means "instance not found" (`false`,
no error), any other non-200 status is a protocol error, 200 means the
instance exists (`true`). -/
def Heartbeat (baseURLs : List String) (appID instanceID : String)
    (doHTTP : String → Except ReqError HTTPResponse) : Except ReqError Bool :=
  let doRequest := fun baseURL => doHTTP (heartbeatURL baseURL appID instanceID)
  match doRequestWithFailOver baseURLs doRequest with
  | (_, some err) =>
    .error { kind := err.kind, msg := "failed to send heartbeat: " ++ err.msg }
  | (some resp, none) =>
    if resp.statusCode == 404 then .ok false
    else if !(resp.statusCode == 200) then
      .error { kind := .protocol,
               msg := "unexpected response status for heartbeat: " ++
                 toString resp.statusCode }
    else .ok true
  | (none, none) => .error { kind := .nilResponse, msg := "nil response" }

/-- The query string built by `EurekaAPIClient.UpdateMetadata`:
`k=v` pairs joined by `&` (no URL-encoding, as in the source).  The Go
map is modelled as an association list fixing one iteration order. -/
def buildMetadataQuery (kv : List (String × String)) : String :=
  kv.foldl
    (fun query p =>
      (if query == "" then query else query ++ "&") ++ p.1 ++ "=" ++ p.2)
    ""

/-- The guard error of `UpdateMetadata`: `errors.New("metadata map
cannot be empty")`, an argument-validation error. -/
def errEmptyMetadata : ReqError :=
  { kind := .invalidArgument, msg := "metadata map cannot be empty" }

/-- The request URL built by `EurekaAPIClient.UpdateMetadata`:
`{base}/apps/{appID}/{instanceID}/metadata?{query}`. -/
def updateMetadataURL (baseURL appID instanceID query : String) : String :=
  baseURL ++ "/apps/" ++ appID ++ "/" ++ instanceID ++ "/metadata?" ++ query

/-- The body of `EurekaAPIClient.UpdateMetadata` after its empty-map
guard (client.go lines 592-620): build the query, PUT with failover,
require status 204. -/
def updateMetadataCore (baseURLs : List String) (appID instanceID : String)
    (kv : List (String × String))
    (doHTTP : String → Except ReqError HTTPResponse) : Except ReqError Unit :=
  let query := buildMetadataQuery kv
  let doRequest := fun baseURL =>
    doHTTP (updateMetadataURL baseURL appID instanceID query)
  match doRequestWithFailOver baseURLs doRequest with
  | (_, some err) =>
    .error { kind := err.kind,
             msg := "failed to update metadata for instance " ++ instanceID ++
               " of application " ++ appID ++ ": " ++ err.msg }
  | (some resp, none) =>
    if !(resp.statusCode == 204) then
      .error { kind := .protocol,
               msg := "unexpected response status when updating metadata for instance " ++
                 instanceID ++ " of application " ++ appID ++ ": " ++
                 toString resp.statusCode }
    else .ok ()
  | (none, none) => .error { kind := .nilResponse, msg := "nil response" }

/-- Embeds `EurekaAPIClient.UpdateMetadata` (client.go lines 587-620): fail
with the argument-validation error if the key/value set is empty,
before anything network-related; otherwise proceed. -/
def UpdateMetadata (baseURLs : List String) (appID instanceID : String)
    (kv : List (String × String))
    (doHTTP : String → Except ReqError HTTPResponse) : Except ReqError Unit :=
  if kv.length == 0 then .error errEmptyMetadata
  else updateMetadataCore baseURLs appID instanceID kv doHTTP

/-! ## Wire model and facade client (client/pkg) -/

/-- Wire `Port`: a value plus an enabled flag. -/
structure Port where
  enabled : Bool
  value : Int
  deriving DecidableEq, Repr

/-- Wire `DataCenter` descriptor. -/
structure DataCenter where
  name : String
  deriving DecidableEq, Repr

/-- Wire `LeaseInfo`: the eviction TTL in seconds (Go `uint`). -/
structure LeaseInfo where
  evictionDurationInSecs : Nat
  deriving DecidableEq, Repr

/-- The fields of the wire `Instance` populated by the facade's
`RegisterInstance`; pointer-typed XML-optional fields are `Option`s. -/
structure WireInstance where
  hostName : String
  app : String
  ipAddr : String
  vipAddress : String
  secureVipAddress : String
  status : String
  port : Option Port
  securePort : Option Port
  dataCenterInfo : DataCenter
  leaseInfo : Option LeaseInfo
  instanceID : String
  deriving DecidableEq, Repr

/-- Status constant `UP` from client.go. -/
def UP : String := "UP"

/-- The `DefaultDataCenter` constant from client.go. -/
def DefaultDataCenter : String := "MyOwn"

/-- The identity the facade `Client` binds at construction: app ID,
host, port, and the instance ID computed once as
`fmt.Sprintf("%s:%s:%d", host, appID, port)`. -/
structure FacadeClient where
  appID : String
  host : String
  port : Int
  instanceID : String
  deriving DecidableEq, Repr

/-- The identity part of `NewClient` (facade): the instance ID is
`host:appID:port`. -/
def newFacadeClient (appID host : String) (port : Int) : FacadeClient :=
  { appID := appID, host := host, port := port,
    instanceID := host ++ ":" ++ appID ++ ":" ++ toString port }

/-- The wire `Instance` built by the facade's `RegisterInstance`
(client pkg): status `UP`, default data center, the caller's TTL as
lease info, VIP and secure VIP defaulted to the app ID, and the single
configured port used for both the primary and the secure port element,
with `enabled` set to `!useSSL` and `useSSL` respectively.  The IP
address string is the rendering of `ip.To4()`. -/
def buildRegisterInstance (c : FacadeClient) (ipAddr : String) (ttl : Nat)
    (useSSL : Bool) : WireInstance :=
  { hostName := c.host
    instanceID := c.instanceID
    app := c.appID
    ipAddr := ipAddr
    status := UP
    dataCenterInfo := { name := DefaultDataCenter }
    leaseInfo := some { evictionDurationInSecs := ttl }
    secureVipAddress := c.appID
    vipAddress := c.appID
    securePort := some { value := c.port, enabled := useSSL }
    port := some { value := c.port, enabled := !useSSL } }

/-! ## Helper lemmas about the failover loop -/

/-- As long as every base URL in a prefix fails, running the loop over
that prefix followed by a URL whose round trip succeeds yields that
round trip's response, whatever `lastErr` the loop carries and whatever
comes after the succeeding URL. -/
theorem failOverLoop_append_ok
    (g : String → Except ReqError HTTPResponse) (u : String)
    (r : HTTPResponse) (post : List String) (hu : g u = .ok r) :
    ∀ (pre : List String), (∀ v ∈ pre, ∃ e, g v = .error e) →
      ∀ le : Option ReqError,
        failOverLoop g (pre ++ u :: post) le = (some r, none) := by
  intro pre
  induction pre with
  | nil =>
    intro _ le
    simp only [List.nil_append, failOverLoop, hu]
  | cons v vs ih =>
    intro hpre le
    obtain ⟨e, he⟩ := hpre v (List.mem_cons_self v vs)
    simp only [List.cons_append, failOverLoop, he]
    exact ih (fun w hw => hpre w (List.mem_cons_of_mem v hw)) _

/-- When every base URL fails, the loop returns no response and the
last URL's error wrapped with that URL's name, whatever `lastErr` it
starts from. -/
theorem failOverLoop_all_fail
    (g : String → Except ReqError HTTPResponse) :
    ∀ (urls : List String) (hne : urls ≠ []),
      (∀ v ∈ urls, ∃ e, g v = .error e) →
      ∃ e, g (urls.getLast hne) = .error e ∧
        ∀ le : Option ReqError,
          failOverLoop g urls le = (none, some (wrapURLErr (urls.getLast hne) e)) := by
  intro urls
  induction urls with
  | nil => intro hne; exact absurd rfl hne
  | cons v vs ih =>
    intro _ hall
    obtain ⟨e, he⟩ := hall v (List.mem_cons_self v vs)
    cases vs with
    | nil =>
      exact ⟨e, he, fun le => by simp only [failOverLoop, he, List.getLast]⟩
    | cons w ws =>
      obtain ⟨e', he', hloop⟩ :=
        ih (List.cons_ne_nil w ws) (fun x hx => hall x (List.mem_cons_of_mem v hx))
      refine ⟨e', ?_, ?_⟩
      · rwa [List.getLast_cons (List.cons_ne_nil w ws)]
      · intro le
        rw [List.getLast_cons (List.cons_ne_nil w ws)]
        have step : failOverLoop g (v :: w :: ws) le
            = failOverLoop g (w :: ws) (some (wrapURLErr v e)) := by
          simp only [failOverLoop, he]
        rw [step]
        exact hloop (some (wrapURLErr v e))


/-- When every base URL fails, the loop invokes `doRequest` on every
configured URL. -/
theorem failOverAttempts_all_fail
    (g : String → Except ReqError HTTPResponse) :
    ∀ (urls : List String), (∀ v ∈ urls, ∃ e, g v = .error e) →
      failOverAttempts g urls = urls := by
  intro urls
  induction urls with
  | nil => intro _; rfl
  | cons v vs ih =>
    intro hall
    obtain ⟨e, he⟩ := hall v (List.mem_cons_self v vs)
    simp only [failOverAttempts, he]
    exact congrArg (v :: ·) (ih fun w hw => hall w (List.mem_cons_of_mem v hw))

/-- C1: the transport client tries the base URLs strictly in configured
order; the first URL whose round trip completes without a
transport-level error wins, its response (status and body, whatever the
status code) is returned as-is, and no URL after it is attempted: with
every URL of `pre` failing and `u` succeeding with response `r`, the
failover returns exactly `r` with a nil error, and the set of attempted
URLs is exactly `pre ++ [u]` — the URLs of `post` are never tried.
Every registry operation of the transport client routes its round trip
through `doRequestWithFailOver`. -/
theorem failover_uses_first_success
    (pre post : List String) (u : String)
    (f : String → Except ReqError HTTPResponse) (r : HTTPResponse)
    (hpre : ∀ v ∈ pre, ∃ e, f v = .error e)
    (hu : f u = .ok r) :
    doRequestWithFailOver (pre ++ u :: post) f = (some r, none) ∧
    failOverAttempts f (pre ++ u :: post) = pre ++ [u] := by
  constructor
  · exact failOverLoop_append_ok f u r post hu pre hpre none
  · induction pre with
    | nil => simp only [List.nil_append, failOverAttempts, hu]
    | cons v vs ih =>
      obtain ⟨e, he⟩ := hpre v (List.mem_cons_self v vs)
      simp only [List.cons_append, failOverAttempts, he]
      exact congrArg (v :: ·) (ih fun w hw => hpre w (List.mem_cons_of_mem v hw))

/-- C1 witness: with `URL[0]` failing at transport level and `URL[1]`
succeeding with a 500 response, the call returns `URL[1]`'s response
as-is and `URL[2]` is not attempted. -/
theorem failover_uses_first_success_witness :
    doRequestWithFailOver ["http://a/eureka/v2", "http://b/eureka/v2", "http://c/eureka/v2"]
        (fun s => if s == "http://a/eureka/v2" then
            .error { kind := .transport, msg := "connection refused" }
          else .ok { statusCode := 500, body := "oops" })
      = (some { statusCode := 500, body := "oops" }, none) ∧
    failOverAttempts
        (fun s => if s == "http://a/eureka/v2" then
            .error { kind := .transport, msg := "connection refused" }
          else .ok { statusCode := 500, body := "oops" })
        ["http://a/eureka/v2", "http://b/eureka/v2", "http://c/eureka/v2"]
      = ["http://a/eureka/v2"] ++ ["http://b/eureka/v2"] := by
  have h := failover_uses_first_success
    ["http://a/eureka/v2"] ["http://c/eureka/v2"] "http://b/eureka/v2"
    (fun s => if s == "http://a/eureka/v2" then
        .error { kind := .transport, msg := "connection refused" }
      else .ok { statusCode := 500, body := "oops" })
    { statusCode := 500, body := "oops" }
    (by intro v hv
        simp only [List.mem_singleton] at hv
        subst hv
        exact ⟨{ kind := .transport, msg := "connection refused" }, rfl⟩)
    rfl
  exact h

/-- C2: if every configured base URL fails at the transport level, the
operation's round trip yields no response and an error that is the last
URL's transport error wrapped so as to name that URL (every registry
operation then surfaces this error without producing a success
value). -/
theorem failover_all_fail
    (urls : List String) (f : String → Except ReqError HTTPResponse)
    (hne : urls ≠ [])
    (hall : ∀ v ∈ urls, ∃ e, f v = .error e) :
    ∃ e, f (urls.getLast hne) = .error e ∧
      doRequestWithFailOver urls f =
        (none, some { kind := e.kind,
                      msg := "request to " ++ urls.getLast hne ++ " failed: " ++ e.msg }) := by
  obtain ⟨e, he, hloop⟩ := failOverLoop_all_fail f urls hne hall
  exact ⟨e, he, hloop none⟩

/-- C2 witness: with both configured URLs failing at transport level,
the call returns no response and the second (last) URL's error, wrapped
naming that URL. -/
theorem failover_all_fail_witness :
    ∃ e : ReqError,
      (fun s => (.error { kind := .transport, msg := "dial tcp: " ++ s } :
          Except ReqError HTTPResponse)) "http://b/eureka/v2" = .error e ∧
      doRequestWithFailOver ["http://a/eureka/v2", "http://b/eureka/v2"]
          (fun s => .error { kind := .transport, msg := "dial tcp: " ++ s })
        = (none, some { kind := e.kind,
                        msg := "request to " ++ "http://b/eureka/v2" ++ " failed: " ++ e.msg }) :=
  failover_all_fail ["http://a/eureka/v2", "http://b/eureka/v2"]
    (fun s => .error { kind := .transport, msg := "dial tcp: " ++ s })
    (by decide)
    (by intro v _
        exact ⟨{ kind := .transport, msg := "dial tcp: " ++ v }, rfl⟩)

/-- The round-trip outcome when the caller-supplied context is already
expired or cancelled as the call starts: Go's `http.Client.Do` fails
immediately with an error wrapping `context.Canceled` /
`context.DeadlineExceeded`, for every URL alike. -/
def cancelledDoRequest : String → Except ReqError HTTPResponse :=
  fun _ => .error { kind := .cancelled, msg := "context canceled" }

/-- C4 counterexample: with two configured base URLs and an
already-cancelled context (every round trip failing immediately with a
cancellation error), the failover loop attempts BOTH servers — the list
of attempted URLs is the whole configuration, not just the first URL —
and the error it returns wraps the SECOND URL's cancellation error.
The claim that failover is not attempted against the other configured
servers is false: `doRequestWithFailOver` advances to the next URL on
any error, with no special case for cancellation. -/
theorem failover_cancelled_counterexample :
    failOverAttempts cancelledDoRequest ["http://a/eureka/v2", "http://b/eureka/v2"]
        = ["http://a/eureka/v2", "http://b/eureka/v2"] ∧
    (["http://a/eureka/v2", "http://b/eureka/v2"] : List String) ≠ ["http://a/eureka/v2"] ∧
    doRequestWithFailOver ["http://a/eureka/v2", "http://b/eureka/v2"] cancelledDoRequest
      = (none, some { kind := .cancelled,
                      msg := "request to http://b/eureka/v2 failed: context canceled" }) :=
  ⟨rfl, by decide, rfl⟩

/-- C4 amended: if the caller-supplied context is already expired or
cancelled when the call starts, every per-URL round trip fails
immediately with a cancellation error (not a transport error), but the
failover loop still attempts every configured URL in order; the
operation fails with the last URL's cancellation error wrapped naming
that URL — its kind is still the cancellation kind. -/
theorem failover_cancelled_attempts_all
    (urls : List String) (f : String → Except ReqError HTTPResponse)
    (hne : urls ≠ [])
    (hcancel : ∀ v ∈ urls, ∃ m, f v = .error { kind := .cancelled, msg := m }) :
    failOverAttempts f urls = urls ∧
    ∃ m, doRequestWithFailOver urls f =
        (none, some { kind := .cancelled,
                      msg := "request to " ++ urls.getLast hne ++ " failed: " ++ m }) := by
  have hall : ∀ v ∈ urls, ∃ e, f v = .error e := by
    intro v hv
    obtain ⟨m, hm⟩ := hcancel v hv
    exact ⟨_, hm⟩
  refine ⟨failOverAttempts_all_fail f urls hall, ?_⟩
  obtain ⟨e, he, hres⟩ := failover_all_fail urls f hne hall
  obtain ⟨m, hm⟩ := hcancel (urls.getLast hne) (List.getLast_mem hne)
  rw [hm] at he
  cases he
  exact ⟨m, hres⟩

/-- C4 amended witness: two URLs, already-cancelled context. -/
theorem failover_cancelled_attempts_all_witness :
    failOverAttempts cancelledDoRequest ["http://a/eureka/v2", "http://b/eureka/v2"]
        = ["http://a/eureka/v2", "http://b/eureka/v2"] ∧
    ∃ m, doRequestWithFailOver ["http://a/eureka/v2", "http://b/eureka/v2"] cancelledDoRequest
        = (none, some { kind := .cancelled,
                        msg := "request to " ++ "http://b/eureka/v2" ++ " failed: " ++ m }) :=
  failover_cancelled_attempts_all ["http://a/eureka/v2", "http://b/eureka/v2"]
    cancelledDoRequest (by decide)
    (by intro v _; exact ⟨"context canceled", rfl⟩)

/-- C3: for a heartbeat whose HTTP round trip completes with response
`resp`, the transport client's `Heartbeat` maps the status code thus:
404 yields the distinguished not-found result (`false`, no error), 200
yields `true` (instance exists, lease renewed) with no error, and any
other status yields a protocol error. -/
theorem heartbeat_status_mapping
    (urls : List String) (appID instanceID : String)
    (doHTTP : String → Except ReqError HTTPResponse) (resp : HTTPResponse)
    (hrt : doRequestWithFailOver urls
        (fun baseURL => doHTTP (heartbeatURL baseURL appID instanceID))
        = (some resp, none)) :
    (resp.statusCode = 404 → Heartbeat urls appID instanceID doHTTP = .ok false) ∧
    (resp.statusCode = 200 → Heartbeat urls appID instanceID doHTTP = .ok true) ∧
    (resp.statusCode ≠ 404 → resp.statusCode ≠ 200 →
      Heartbeat urls appID instanceID doHTTP =
        .error { kind := .protocol,
                 msg := "unexpected response status for heartbeat: " ++
                   toString resp.statusCode }) := by
  have hbody : Heartbeat urls appID instanceID doHTTP =
      (if resp.statusCode == 404 then .ok false
       else if !(resp.statusCode == 200) then
         .error { kind := .protocol,
                  msg := "unexpected response status for heartbeat: " ++
                    toString resp.statusCode }
       else .ok true) := by
    simp only [Heartbeat]
    rw [hrt]
  refine ⟨fun h404 => ?_, fun h200 => ?_, fun h404 h200 => ?_⟩
  · rw [hbody, if_pos (by simp [h404])]
  · rw [hbody, if_neg (by simp [h200]), if_neg (by simp [h200])]
  · rw [hbody, if_neg (by simp [h404]), if_pos (by simp [h200])]

/-- C3 witness: a single reachable server answering 404 yields the
not-found result (no error). -/
theorem heartbeat_status_mapping_witness :
    (404 = 404 →
      Heartbeat ["http://h/eureka/v2"] "app" "inst"
          (fun _ => .ok { statusCode := 404, body := "" }) = .ok false) ∧
    Heartbeat ["http://h/eureka/v2"] "app" "inst"
        (fun _ => .ok { statusCode := 404, body := "" }) = .ok false := by
  have h := heartbeat_status_mapping ["http://h/eureka/v2"] "app" "inst"
    (fun _ => .ok { statusCode := 404, body := "" })
    { statusCode := 404, body := "" } rfl
  exact ⟨h.1, h.1 rfl⟩

/-- C8: `UpdateMetadata` with an empty key/value mapping fails with the
argument-validation error for every application ID, instance ID, URL
configuration and network behavior — the result is a constant
independent of the network oracle, so no network call is issued; with a
non-empty mapping the guard does not fire and the call proceeds to the
post-guard body. -/
theorem updateMetadata_empty_guard :
    (∀ (urls : List String) (appID instanceID : String)
        (doHTTP : String → Except ReqError HTTPResponse),
      UpdateMetadata urls appID instanceID [] doHTTP = .error errEmptyMetadata) ∧
    (∀ (urls : List String) (appID instanceID : String)
        (kv : List (String × String))
        (doHTTP : String → Except ReqError HTTPResponse), kv ≠ [] →
      UpdateMetadata urls appID instanceID kv doHTTP =
        updateMetadataCore urls appID instanceID kv doHTTP) := by
  constructor
  · intro urls appID instanceID doHTTP
    rfl
  · intro urls appID instanceID kv doHTTP hkv
    cases kv with
    | nil => exact absurd rfl hkv
    | cons p ps => rfl

/-- C8 witness: concrete empty and non-empty mappings. -/
theorem updateMetadata_empty_guard_witness :
    UpdateMetadata ["http://h/eureka/v2"] "app" "inst" []
        (fun _ => .ok { statusCode := 204, body := "" }) = .error errEmptyMetadata ∧
    UpdateMetadata ["http://h/eureka/v2"] "app" "inst" [("k", "v")]
        (fun _ => .ok { statusCode := 204, body := "" }) =
      updateMetadataCore ["http://h/eureka/v2"] "app" "inst" [("k", "v")]
        (fun _ => .ok { statusCode := 204, body := "" }) :=
  ⟨updateMetadata_empty_guard.1 ["http://h/eureka/v2"] "app" "inst"
      (fun _ => .ok { statusCode := 204, body := "" }),
    updateMetadata_empty_guard.2 ["http://h/eureka/v2"] "app" "inst" [("k", "v")]
      (fun _ => .ok { statusCode := 204, body := "" }) (by decide)⟩

/-- C9: the facade's `RegisterInstance` for a client constructed with
app ID `a`, host `h`, port `p` builds an Instance with instance ID
`h:a:p`, primary port value `p` enabled iff not `useSSL`, secure port
value `p` enabled iff `useSSL` (so the two enabled flags always
differ — exactly one of the two ports is enabled), status `UP`, and VIP
and secure VIP defaulted to the app ID; in particular for app `my-app`,
host `10.5.0.50`, port 8080, `useSSL = false` the instance ID is
`10.5.0.50:my-app:8080` with the primary port 8080 enabled and the
secure port disabled. -/
theorem registerInstance_builds_identity
    (h a : String) (p : Int) (ip : String) (ttl : Nat) (useSSL : Bool) :
    (buildRegisterInstance (newFacadeClient a h p) ip ttl useSSL).instanceID
        = h ++ ":" ++ a ++ ":" ++ toString p ∧
    (buildRegisterInstance (newFacadeClient a h p) ip ttl useSSL).port
        = some { enabled := !useSSL, value := p } ∧
    (buildRegisterInstance (newFacadeClient a h p) ip ttl useSSL).securePort
        = some { enabled := useSSL, value := p } ∧
    (buildRegisterInstance (newFacadeClient a h p) ip ttl useSSL).port.map Port.enabled
        ≠ (buildRegisterInstance (newFacadeClient a h p) ip ttl useSSL).securePort.map
            Port.enabled ∧
    (buildRegisterInstance (newFacadeClient a h p) ip ttl useSSL).status = UP ∧
    (buildRegisterInstance (newFacadeClient a h p) ip ttl useSSL).vipAddress = a ∧
    (buildRegisterInstance (newFacadeClient a h p) ip ttl useSSL).secureVipAddress = a ∧
    (buildRegisterInstance (newFacadeClient "my-app" "10.5.0.50" 8080) "10.5.0.50" 3
        false).instanceID = "10.5.0.50:my-app:8080" ∧
    (buildRegisterInstance (newFacadeClient "my-app" "10.5.0.50" 8080) "10.5.0.50" 3
        false).port = some { enabled := true, value := 8080 } ∧
    (buildRegisterInstance (newFacadeClient "my-app" "10.5.0.50" 8080) "10.5.0.50" 3
        false).securePort = some { enabled := false, value := 8080 } := by
  refine ⟨rfl, rfl, rfl, ?_, rfl, rfl, rfl, by decide, rfl, rfl⟩
  cases useSSL <;> simp [buildRegisterInstance, newFacadeClient]

/-- C10: regardless of the `useSSL` flag, the facade's
`RegisterInstance` always populates BOTH the primary and the secure
port element, and both carry the single configured port value — the
client cannot register distinct primary and secure port numbers. -/
theorem registerInstance_ports_share_value
    (h a : String) (p : Int) (ip : String) (ttl : Nat) (useSSL : Bool) :
    ∃ pe se : Port,
      (buildRegisterInstance (newFacadeClient a h p) ip ttl useSSL).port = some pe ∧
      (buildRegisterInstance (newFacadeClient a h p) ip ttl useSSL).securePort = some se ∧
      pe.value = se.value ∧ pe.value = p :=
  ⟨{ enabled := !useSSL, value := p }, { enabled := useSSL, value := p },
    rfl, rfl, rfl, rfl⟩

/-! ## Helper lemmas about the URL normalizer -/

/-- The head of `dropWhile p` does not satisfy `p`. -/
theorem head?_dropWhile_false {p : Char → Bool} {l : List Char} {c : Char}
    (h : (l.dropWhile p).head? = some c) : p c = false := by
  have := List.head?_dropWhile_not p l
  rw [h] at this
  exact this

/-- Trimming never leaves a trailing slash. -/
theorem trimRightSlash_getLast (s : String) :
    (trimRightSlash s).data.getLast? ≠ some '/' := by
  intro h
  have h' : (s.data.reverse.dropWhile (fun c => c == '/')).head? = some '/' := by
    simpa [trimRightSlash] using h
  have := head?_dropWhile_false h'
  simp at this

/-- A string with no trailing slash is unchanged by `trimRightSlash`. -/
theorem trimRightSlash_eq_self {s : String}
    (h : s.data.getLast? ≠ some '/') : trimRightSlash s = s := by
  apply String.ext
  show (s.data.reverse.dropWhile (fun c => c == '/')).reverse = s.data
  have hdrop : s.data.reverse.dropWhile (fun c => c == '/') = s.data.reverse := by
    cases hr : s.data.reverse with
    | nil => rfl
    | cons c cs =>
      have hc : (c == '/') = false := by
        have : s.data.getLast? = some c := by
          rw [← List.head?_reverse, hr]
          rfl
        simp only [beq_eq_false_iff_ne, ne_eq]
        intro hceq
        exact h (hceq ▸ this)
      rw [List.dropWhile_cons_of_neg (by simp [hc])]
  rw [hdrop, List.reverse_reverse]

/-- Trimming trailing slashes is idempotent. -/
theorem trimRightSlash_idem (s : String) :
    trimRightSlash (trimRightSlash s) = trimRightSlash s :=
  trimRightSlash_eq_self (trimRightSlash_getLast s)

/-- Trimming keeps an initial segment of the input. -/
theorem trimRightSlash_isPre (s : String) :
    ∃ t, (trimRightSlash s).data ++ t = s.data := by
  obtain ⟨pre, hpre⟩ := List.dropWhile_suffix (l := s.data.reverse) (fun c => c == '/')
  refine ⟨pre.reverse, ?_⟩
  show (s.data.reverse.dropWhile (fun c => c == '/')).reverse ++ pre.reverse = s.data
  rw [← List.reverse_append, hpre, List.reverse_reverse]

/-- When the trimmed string is nonempty, its first character is the
input's first character. -/
theorem trimRightSlash_head? {s : String}
    (h : (trimRightSlash s).data ≠ []) :
    (trimRightSlash s).data.head? = s.data.head? := by
  obtain ⟨t, ht⟩ := trimRightSlash_isPre s
  rw [← ht]
  cases hd : (trimRightSlash s).data with
  | nil => exact absurd hd h
  | cons c cs => rfl

/-- A string `eqFold`-equal to a nonempty string is nonempty. -/
theorem eqFold_ne_nil {a b : String} (h : eqFold a b = true)
    (hb : b.data ≠ []) : a.data ≠ [] := by
  intro ha
  apply hb
  have : a.data.map Char.toLower = b.data.map Char.toLower := by
    simpa [eqFold] using h
  rw [ha] at this
  exact List.map_eq_nil_iff.mp this.symm

/-- The canonical path is never the empty string. -/
theorem canonPath_ne_nil (p : String) : (canonPath p).data ≠ [] := by
  unfold canonPath
  by_cases h1 : eqFold (trimRightSlash p) "/eureka/v2" = true
  · rw [if_pos h1]
    exact eqFold_ne_nil h1 (by decide)
  · rw [if_neg h1]
    by_cases h2 : eqFold (trimRightSlash p) "/eureka" = true
    · rw [if_pos h2]
      intro hnil
      rw [String.data_append] at hnil
      simp at hnil
    · rw [if_neg h2]
      by_cases h3 : (trimRightSlash p == "") = true
      · rw [if_pos h3]
        decide
      · rw [if_neg h3]
        intro hnil
        apply h3
        have : trimRightSlash p = "" := String.ext hnil
        simp [this]

/-- The canonical path never ends with a slash. -/
theorem canonPath_getLast (p : String) :
    (canonPath p).data.getLast? ≠ some '/' := by
  unfold canonPath
  by_cases h1 : eqFold (trimRightSlash p) "/eureka/v2" = true
  · rw [if_pos h1]
    exact trimRightSlash_getLast p
  · rw [if_neg h1]
    by_cases h2 : eqFold (trimRightSlash p) "/eureka" = true
    · rw [if_pos h2]
      rw [String.data_append]
      rw [List.getLast?_append_of_ne_nil _ (by decide)]
      decide
    · rw [if_neg h2]
      by_cases h3 : (trimRightSlash p == "") = true
      · rw [if_pos h3]
        decide
      · rw [if_neg h3]
        exact trimRightSlash_getLast p

/-- When the input path starts with `/` (or is empty), the canonical
path starts with `/`. -/
theorem canonPath_head {p : String}
    (h : p.data.head? = some '/' ∨ p.data = []) :
    (canonPath p).data.head? = some '/' := by
  have htrim : (trimRightSlash p).data ≠ [] →
      (trimRightSlash p).data.head? = some '/' := by
    intro hne
    rw [trimRightSlash_head? hne]
    rcases h with h | h
    · exact h
    · exfalso
      apply hne
      obtain ⟨t, ht⟩ := trimRightSlash_isPre p
      have hlen := congrArg List.length ht
      rw [h, List.length_append] at hlen
      simp only [List.length_nil] at hlen
      exact List.eq_nil_of_length_eq_zero (by omega)
  unfold canonPath
  by_cases h1 : eqFold (trimRightSlash p) "/eureka/v2" = true
  · rw [if_pos h1]
    exact htrim (eqFold_ne_nil h1 (by decide))
  · rw [if_neg h1]
    by_cases h2 : eqFold (trimRightSlash p) "/eureka" = true
    · rw [if_pos h2]
      rw [String.data_append]
      have hne := eqFold_ne_nil h2 (by decide)
      cases hd : (trimRightSlash p).data with
      | nil => exact absurd hd hne
      | cons c cs =>
        have := htrim hne
        rw [hd] at this
        simp only [List.head?_cons, Option.some_inj] at this
        simp [this]
    · rw [if_neg h2]
      by_cases h3 : (trimRightSlash p == "") = true
      · rw [if_pos h3]
        decide
      · rw [if_neg h3]
        apply htrim
        intro hnil
        apply h3
        have : trimRightSlash p = "" := String.ext hnil
        simp [this]

/-- Appending `/v2` to a path that folds to `/eureka` yields a path
that folds to `/eureka/v2`. -/
theorem eqFold_append_v2 {p : String} (h : eqFold p "/eureka" = true) :
    eqFold (p ++ "/v2") "/eureka/v2" = true := by
  have hmap : p.data.map Char.toLower = "/eureka".data.map Char.toLower := by
    simpa [eqFold] using h
  simp only [eqFold, String.data_append, List.map_append, hmap, beq_iff_eq]
  decide

/-- The path canonicalization is idempotent. -/
theorem canonPath_idem (p : String) : canonPath (canonPath p) = canonPath p := by
  have htrim : trimRightSlash (canonPath p) = canonPath p :=
    trimRightSlash_eq_self (canonPath_getLast p)
  have key : eqFold (canonPath p) "/eureka/v2" = true ∨
      (eqFold (canonPath p) "/eureka/v2" = false ∧
        eqFold (canonPath p) "/eureka" = false ∧
        (canonPath p == "") = false) := by
    unfold canonPath
    by_cases h1 : eqFold (trimRightSlash p) "/eureka/v2" = true
    · rw [if_pos h1]
      exact Or.inl h1
    · rw [if_neg h1]
      by_cases h2 : eqFold (trimRightSlash p) "/eureka" = true
      · rw [if_pos h2]
        exact Or.inl (eqFold_append_v2 h2)
      · rw [if_neg h2]
        by_cases h3 : (trimRightSlash p == "") = true
        · rw [if_pos h3]
          exact Or.inl (by decide)
        · rw [if_neg h3]
          exact Or.inr ⟨Bool.eq_false_iff.mpr h1, Bool.eq_false_iff.mpr h2,
            Bool.eq_false_iff.mpr h3⟩
  generalize hq : canonPath p = q at htrim key ⊢
  unfold canonPath
  rw [htrim]
  rcases key with hk | ⟨hk1, hk2, hk3⟩
  · rw [if_pos hk]
  · rw [if_neg (by simp [hk1]), if_neg (by simp [hk2]), if_neg (by simp [hk3])]

/-- A valid scheme contains no colon. -/
theorem validScheme_no_colon {sch : List Char} (h : validScheme sch = true) :
    ':' ∉ sch := by
  cases sch with
  | nil => simp
  | cons c cs =>
    simp only [validScheme, Bool.and_eq_true, List.all_eq_true] at h
    intro hmem
    rcases List.mem_cons.mp hmem with hc | hc
    · rw [← hc] at h
      exact absurd h.1 (by decide)
    · have := h.2 ':' hc
      exact absurd this (by decide)

/-- Splitting at `"://"` after a colon-free prefix finds exactly that
prefix. -/
theorem splitScheme_append {sch : List Char} (rest : List Char)
    (h : ':' ∉ sch) :
    splitScheme (sch ++ ':' :: '/' :: '/' :: rest) = some (sch, rest) := by
  induction sch with
  | nil => rfl
  | cons c cs ih =>
    have hc : c ≠ ':' := fun hceq => h (hceq ▸ List.mem_cons_self c cs)
    simp only [List.cons_append, splitScheme, List.append_eq]
    rw [if_neg (fun hcontra => hc hcontra.1)]
    rw [ih (fun hmem => h (List.mem_cons_of_mem c hmem))]

/-- Taking `hostOf` of a slash-free host followed by a slash-led path gives the
host. -/
theorem hostOf_append {host q : List Char}
    (hh : ∀ c ∈ host, c ≠ '/') (hq : q.head? = some '/') :
    hostOf (host ++ q) = host := by
  induction host with
  | nil =>
    cases q with
    | nil => simp at hq
    | cons c cs =>
      simp only [List.head?_cons, Option.some_inj] at hq
      simp [hostOf, List.takeWhile_cons, hq]
  | cons c cs ih =>
    have hc : c ≠ '/' := hh c (List.mem_cons_self c cs)
    simp only [List.cons_append, hostOf, List.takeWhile_cons]
    rw [if_pos (by simp [hc])]
    have := ih (fun x hx => hh x (List.mem_cons_of_mem c hx))
    simpa [hostOf] using this

/-- Taking `pathOf` of a slash-free host followed by a slash-led path gives the
path. -/
theorem pathOf_append {host q : List Char}
    (hh : ∀ c ∈ host, c ≠ '/') (hq : q.head? = some '/') :
    pathOf (host ++ q) = q := by
  induction host with
  | nil =>
    cases q with
    | nil => simp at hq
    | cons c cs =>
      simp only [List.head?_cons, Option.some_inj] at hq
      simp [pathOf, List.dropWhile_cons, hq]
  | cons c cs ih =>
    have hc : c ≠ '/' := hh c (List.mem_cons_self c cs)
    simp only [List.cons_append, pathOf, List.dropWhile_cons]
    rw [if_pos (by simp [hc])]
    have := ih (fun x hx => hh x (List.mem_cons_of_mem c hx))
    simpa [pathOf] using this

/-- What a successful parse tells us about the components: the scheme
is valid (hence colon-free), the host is slash-free, the path is empty
or slash-led, and scheme/host/path partition the input after `"://"`. -/
theorem parse_components {s : String} {u : GoURL}
    (h : parseBaseURL s = some u) :
    validScheme u.scheme.data = true ∧
    (∀ c ∈ u.host.data, c ≠ '/') ∧
    (u.path.data.head? = some '/' ∨ u.path.data = []) := by
  unfold parseBaseURL at h
  cases hsp : splitScheme s.data with
  | none => rw [hsp] at h; exact absurd h (by simp)
  | some pr =>
    rw [hsp] at h
    obtain ⟨sch, rest⟩ := pr
    dsimp only at h
    by_cases hv : validScheme sch = true
    · rw [if_pos hv] at h
      simp only [Option.some_inj] at h
      subst h
      refine ⟨hv, ?_, ?_⟩
      · intro c hc
        have := List.mem_takeWhile_imp hc
        simp only [Bool.not_eq_true'] at this
        simp only [beq_eq_false_iff_ne, ne_eq] at this
        exact this
      · cases hhead : (pathOf rest).head? with
        | none =>
          right
          exact List.head?_eq_none_iff.mp hhead
        | some c =>
          left
          have := head?_dropWhile_false hhead
          simp only [Bool.not_eq_true', Bool.not_eq_false] at this
          have : c = '/' := by simpa using this
          rw [this]

    · rw [if_neg hv] at h
      exact absurd h (by simp)

/-- Re-parsing a rendered URL with a valid scheme, slash-free host and
slash-led path recovers the components. -/
theorem parseBaseURL_render {sch host : String} {q : String}
    (hv : validScheme sch.data = true)
    (hh : ∀ c ∈ host.data, c ≠ '/')
    (hq : q.data.head? = some '/') :
    parseBaseURL (sch ++ "://" ++ host ++ q) = some ⟨sch, host, q⟩ := by
  unfold parseBaseURL
  have hdata : (sch ++ "://" ++ host ++ q).data
      = sch.data ++ ':' :: '/' :: '/' :: (host.data ++ q.data) := by
    simp only [String.data_append]
    simp [List.append_assoc]
  rw [hdata, splitScheme_append _ (validScheme_no_colon hv)]
  dsimp only
  rw [if_pos hv]
  simp only [Option.some_inj]
  have h1 : hostOf (host.data ++ q.data) = host.data := hostOf_append hh hq
  have h2 : pathOf (host.data ++ q.data) = q.data := pathOf_append hh hq
  rw [h1, h2]

/-- C5: for every input that parses with a scheme and a host,
`normalizeBaseURL` succeeds and canonicalizes the path exactly per
`canonPath` (trailing slashes stripped, case-insensitive comparison:
`/eureka/v2` kept, `/eureka` gets `/v2` appended, an empty path becomes
`/eureka/v2`, any other non-empty path kept as trimmed); every
successful output ends without a trailing slash; and the three
concrete examples of the spec hold. -/
theorem normalizeBaseURL_canonicalizes :
    (∀ (s : String) (u : GoURL), parseBaseURL s = some u → u.host ≠ "" →
      normalizeBaseURL s = .ok (u.scheme ++ "://" ++ u.host ++ canonPath u.path)) ∧
    (∀ (s out : String), normalizeBaseURL s = .ok out →
      out.data.getLast? ≠ some '/') ∧
    normalizeBaseURL "https://example.com" = .ok "https://example.com/eureka/v2" ∧
    normalizeBaseURL "http://example.com/eureka/" = .ok "http://example.com/eureka/v2" ∧
    normalizeBaseURL "https://example.com/eureka/v2/" = .ok "https://example.com/eureka/v2" := by
  refine ⟨?_, ?_, rfl, rfl, rfl⟩
  · intro s u hp hh
    have hcomp := parse_components hp
    have hsch : u.scheme.data ≠ [] := by
      intro hnil
      rw [hnil] at hcomp
      exact absurd hcomp.1 (by decide)
    have hcond : (u.scheme == "" || u.host == "") = false := by
      simp only [Bool.or_eq_false_iff, beq_eq_false_iff_ne, ne_eq]
      exact ⟨fun he => hsch (by rw [he]), hh⟩
    unfold normalizeBaseURL
    rw [hp]
    dsimp only
    rw [hcond]
    rfl
  · intro s out hout
    unfold normalizeBaseURL at hout
    cases hp : parseBaseURL s with
    | none =>
      rw [hp] at hout
      exact absurd hout (by simp)
    | some u =>
      rw [hp] at hout
      dsimp only at hout
      by_cases hcond : (u.scheme == "" || u.host == "") = true
      · rw [if_pos hcond] at hout
        exact absurd hout (by simp)
      · rw [if_neg hcond] at hout
        simp only [Except.ok.injEq] at hout
        subst hout
        show ((u.scheme ++ "://" ++ u.host) ++ canonPath u.path).data.getLast? ≠ some '/'
        rw [String.data_append]
        rw [List.getLast?_append_of_ne_nil _ (canonPath_ne_nil u.path)]
        exact canonPath_getLast u.path

/-- C5 witness: a parsed URL with custom path, run through the first
conjunct at a concrete input. -/
theorem normalizeBaseURL_canonicalizes_witness :
    normalizeBaseURL "https://example.com:8080/custom/"
      = .ok ("https" ++ "://" ++ "example.com:8080" ++ canonPath "/custom/") :=
  normalizeBaseURL_canonicalizes.1 "https://example.com:8080/custom/"
    { scheme := "https", host := "example.com:8080", path := "/custom/" }
    rfl (by decide)

/-- C6: normalization is idempotent — whenever `normalizeBaseURL`
succeeds, running it on the output succeeds and returns the output
unchanged. -/
theorem normalizeBaseURL_idem (s t : String)
    (h : normalizeBaseURL s = .ok t) : normalizeBaseURL t = .ok t := by
  unfold normalizeBaseURL at h
  cases hp : parseBaseURL s with
  | none =>
    rw [hp] at h
    exact absurd h (by simp)
  | some u =>
    rw [hp] at h
    dsimp only at h
    by_cases hcond : (u.scheme == "" || u.host == "") = true
    · rw [if_pos hcond] at h
      exact absurd h (by simp)
    · rw [if_neg hcond] at h
      simp only [Except.ok.injEq] at h
      obtain ⟨hv, hh, hpath⟩ := parse_components hp
      have hqhead : (canonPath u.path).data.head? = some '/' := canonPath_head hpath
      have hre : parseBaseURL t = some ⟨u.scheme, u.host, canonPath u.path⟩ := by
        rw [← h]
        exact parseBaseURL_render hv hh hqhead
      unfold normalizeBaseURL
      rw [hre]
      dsimp only
      rw [if_neg hcond]
      rw [canonPath_idem]
      rw [← h]

/-- C6 witness: re-normalizing a normalized URL returns it unchanged. -/
theorem normalizeBaseURL_idem_witness :
    normalizeBaseURL "https://example.com/eureka/v2" = .ok "https://example.com/eureka/v2" :=
  normalizeBaseURL_idem "https://example.com" "https://example.com/eureka/v2" rfl

/-- C7 counterexample: `"https:///eureka"` parses as a URL with scheme
`https` and empty host — so it has at least one of scheme or host, and
per the claim should not be rejected — yet `normalizeBaseURL` fails on
it: the code rejects an input lacking EITHER scheme or host, not only
one lacking both. -/
theorem normalizeBaseURL_scheme_only_counterexample :
    parseBaseURL "https:///eureka"
        = some { scheme := "https", host := "", path := "/eureka" } ∧
    ({ scheme := "https", host := "", path := "/eureka" } : GoURL).scheme ≠ "" ∧
    ∃ e, normalizeBaseURL "https:///eureka" = .error e :=
  ⟨rfl, by decide, ⟨_, rfl⟩⟩

/-- C7 amended: `normalizeBaseURL` fails exactly when the input does
not parse as a URL, or its scheme is empty, or its host is empty
(lacking either one suffices; an input that parses with both a scheme
and a host never fails). -/
theorem normalizeBaseURL_error_iff (s : String) :
    (∃ e, normalizeBaseURL s = .error e) ↔
      (parseBaseURL s = none ∨
        ∃ u, parseBaseURL s = some u ∧ (u.scheme = "" ∨ u.host = "")) := by
  unfold normalizeBaseURL
  cases hp : parseBaseURL s with
  | none => simp
  | some u =>
    dsimp only
    by_cases hcond : (u.scheme == "" || u.host == "") = true
    · rw [if_pos hcond]
      constructor
      · intro _
        right
        refine ⟨u, rfl, ?_⟩
        simpa [Bool.or_eq_true, beq_iff_eq] using hcond
      · intro _
        exact ⟨_, rfl⟩
    · rw [if_neg hcond]
      constructor
      · rintro ⟨e, he⟩
        exact absurd he (by simp)
      · rintro (hnone | ⟨u', hu', hbad⟩)
        · exact absurd hnone (by simp)
        · rw [Option.some_inj] at hu'
          subst hu'
          rw [Bool.or_eq_true] at hcond
          rcases hbad with hbad | hbad
          · exact absurd (Or.inl (by simp [hbad])) hcond
          · exact absurd (Or.inr (by simp [hbad])) hcond

end Eureka
